import Mathlib

/-!
Verification of the load-generation and measurement engine of the
db-stress-test repository (src/index.js and src/stress_test.js).

The two scripts are near-duplicates of one engine: a worker pool pulls
task indices from a shared counter, performs one timed unit of work per
index, and records each outcome into a mutable stats accumulator; a
stage runner derives throughput, average latency, error rate and a
critical-failure verdict; a progressive controller ramps concurrency
until a critical failure or a ceiling.  JavaScript is single-threaded:
code between await points runs atomically, so the engine is modelled as
a labelled transition system whose atomic steps are exactly the
synchronous blocks of the worker loop (claim an index and check the
bound; record one outcome).  JavaScript numbers are modelled as exact
rationals extended with Infinity and NaN where division by zero can
occur.
-/

namespace DbStress

/-- Model of the error value attached to a failed action: the fields the
engine inspects (err.code and err.message in src/index.js lines 161-164). -/
structure JsError where
  code : String
  message : String
deriving DecidableEq

/-- Model of JavaScript string inclusion: s.includes(pat) for a non-empty
pattern holds exactly when splitting s on pat yields more than one piece. -/
def stringIncludes (s pat : String) : Bool :=
  1 < (s.splitOn pat).length

/-- Connection-error classification of src/index.js lines 161-164:
the error code is the Postgres too-many-connections code 53300, or the
message mentions a timeout. -/
def isConnectionError (e : JsError) : Bool :=
  e.code == "53300" || stringIncludes e.message "timeout"

/-- Outcome of one unit of work as returned by performUserAction
(src/index.js lines 107-109): success with a measured duration in
milliseconds, or failure with the thrown error. -/
inductive Outcome where
  | success (duration : Nat)
  | failure (err : JsError)
deriving DecidableEq

/-- The mutable stats accumulator of one stage (src/index.js lines
132-138): completed and error counts, sum of successful durations, the
list of individual latency samples, and the connection-error
sub-counter. -/
structure Stats where
  completed : Nat
  errors : Nat
  totalDuration : Nat
  latencies : List Nat
  connErrors : Nat
deriving DecidableEq

/-- Initial stats of a stage (src/index.js lines 132-138). -/
def Stats.init : Stats :=
  { completed := 0, errors := 0, totalDuration := 0, latencies := [], connErrors := 0 }

/-- Recording one outcome into the accumulator, the synchronous block of
src/index.js lines 154-167: a success bumps completed, adds its duration
to the running sum and appends the latency sample; a failure bumps errors
and, when classified as a connection error, the connection-error
sub-counter. -/
def Stats.record (s : Stats) (o : Outcome) : Stats :=
  match o with
  | .success d =>
      { s with
        completed := s.completed + 1
        totalDuration := s.totalDuration + d
        latencies := s.latencies ++ [d] }
  | .failure e =>
      { s with
        errors := s.errors + 1
        connErrors := if isConnectionError e then s.connErrors + 1 else s.connErrors }

/-- JavaScript number results of the derived-metric divisions: an exact
rational, or the non-finite values Infinity, -Infinity and NaN that
JavaScript division can produce. -/
inductive JsNum where
  | nan
  | posInf
  | negInf
  | fin (q : ℚ)
deriving DecidableEq

/-- JavaScript division a / b: finite quotient when b is nonzero, and the
IEEE conventions 0/0 = NaN, a/0 = plus or minus Infinity otherwise. -/
def jsDiv (a b : ℚ) : JsNum :=
  if b = 0 then
    if a = 0 then JsNum.nan
    else if 0 < a then JsNum.posInf
    else JsNum.negInf
  else JsNum.fin (a / b)

/-- JavaScript strict greater-than on numbers: any comparison with NaN is
false; Infinity is above every finite value and -Infinity below. -/
def JsNum.gt : JsNum → JsNum → Bool
  | .nan, _ => false
  | _, .nan => false
  | .posInf, .posInf => false
  | .posInf, _ => true
  | _, .posInf => false
  | .negInf, _ => false
  | .fin _, .negInf => true
  | .fin a, .fin b => decide (b < a)

/-- The hardcoded error-rate threshold MAX_ERROR_RATE = 0.05 of
src/index.js line 14. -/
def MAX_ERROR_RATE : ℚ := 5 / 100

/-- The immutable per-stage result returned by runStage (src/index.js
lines 194-200). -/
structure StageResult where
  concurrency : Nat
  throughput : JsNum
  avgLatency : ℚ
  errorRate : JsNum
  hasCriticalFailure : Bool
deriving DecidableEq

/-- Derivation of the StageResult from the final stats, the elapsed
seconds and the stage parameters, src/index.js lines 177-200:
throughput = completed / totalTime (unguarded JavaScript division),
avgLatency = totalDuration / completed guarded by completed > 0,
errorRate = errors / requestCount, and
hasCriticalFailure = connErrors > 0 or errorRate > MAX_ERROR_RATE. -/
def mkStageResult (concurrency requestCount : Nat) (stats : Stats) (totalTime : ℚ) :
    StageResult :=
  let throughput := jsDiv (stats.completed : ℚ) totalTime
  let avgLatency : ℚ :=
    if 0 < stats.completed then (stats.totalDuration : ℚ) / (stats.completed : ℚ) else 0
  let errorRate := jsDiv (stats.errors : ℚ) (requestCount : ℚ)
  { concurrency := concurrency
    throughput := throughput
    avgLatency := avgLatency
    errorRate := errorRate
    hasCriticalFailure := decide (0 < stats.connErrors) || errorRate.gt (JsNum.fin MAX_ERROR_RATE) }

/-- Percentile selection of src/stress_test.js lines 200-204, applied to
the already-sorted latency list: 0 on an empty list, else the element at
index floor((p / 100) * length).  The floor of the exact rational is
used; at the inputs considered here the JavaScript double computation
rounds to the same integer index. -/
def getPercentile (sortedLatencies : List Nat) (p : Nat) : Nat :=
  if sortedLatencies.length = 0 then 0
  else sortedLatencies.getD (p * sortedLatencies.length / 100) 0

/-- The 100-sample latency fixture [10, 20, 30, ..., 1000] of the spec's
percentile test, already sorted ascending. -/
def latencyFixture : List Nat :=
  (List.range 100).map (fun i => 10 * (i + 1))

/-- Model of performUserAction (src/index.js lines 82-113).  The
environment supplies the results of the three awaited store operations
(connection acquisition, the INSERT, the SELECT) and the measured
duration.  The try block binds the client only when acquisition
succeeds; every path then reaches the finally block, which releases the
client exactly when it was bound.  The function returns the action's
result together with the number of release calls performed. -/
inductive UAResult where
  | ok (duration : Nat)
  | err (e : JsError)
deriving DecidableEq

def performUserAction (connect write readq : Except JsError Unit) (duration : Nat) :
    UAResult × Nat :=
  let body : Option Unit × UAResult :=
    match connect with
    | .error e => (none, UAResult.err e)
    | .ok _ =>
      match write with
      | .error e => (some (), UAResult.err e)
      | .ok _ =>
        match readq with
        | .error e => (some (), UAResult.err e)
        | .ok _ => (some (), UAResult.ok duration)
  (body.2, if body.1.isSome then 1 else 0)

/-- State of one worker of the pool (src/index.js lines 144-171): about
to poll the shared counter, awaiting the action for a claimed index, or
terminated after observing exhaustion. -/
inductive WorkerState where
  | ready
  | pending (taskIndex : Nat)
  | done
deriving DecidableEq

/-- State of one stage run: the shared tasksStarted counter, the stats
accumulator, and the states of the concurrency-many workers. -/
structure StageState where
  tasksStarted : Nat
  stats : Stats
  workers : List WorkerState
deriving DecidableEq

/-- Stage start (src/index.js lines 132-144): counter at 0, empty stats,
all workers about to poll. -/
def initState (concurrency : Nat) : StageState :=
  { tasksStarted := 0
    stats := Stats.init
    workers := List.replicate concurrency WorkerState.ready }

/-- Observable events of a stage run: a worker polling the counter and
receiving an index (the synchronous claim-and-check block of lines
148-149), and a worker recording the outcome of a claimed index (the
synchronous block of lines 154-167 after the await resolves). -/
inductive Event where
  | poll (worker idx : Nat)
  | record (worker idx : Nat)
deriving DecidableEq

/-- Worker that performed an event. -/
def Event.worker : Event → Nat
  | .poll w _ => w
  | .record w _ => w

/-- Atomic steps of a stage run.  JavaScript runs the code between await
points synchronously, so a step is either a poll — tasksStarted++ with
the bound check, turning the worker into done (index at or past
requestCount) or pending — or the recording of one outcome, after which
the worker loops back to polling.  The outcome of the action for task
index k is supplied by the environment function act. -/
inductive LStep (requestCount : Nat) (act : Nat → Outcome) :
    StageState → Event → StageState → Prop where
  | poll {s : StageState} (i : Nat) (h : s.workers.get? i = some WorkerState.ready) :
      LStep requestCount act s (Event.poll i s.tasksStarted)
        { tasksStarted := s.tasksStarted + 1
          stats := s.stats
          workers := s.workers.set i
            (if requestCount ≤ s.tasksStarted then WorkerState.done
             else WorkerState.pending s.tasksStarted) }
  | record {s : StageState} (i idx : Nat)
      (h : s.workers.get? i = some (WorkerState.pending idx)) :
      LStep requestCount act s (Event.record i idx)
        { tasksStarted := s.tasksStarted
          stats := s.stats.record (act idx)
          workers := s.workers.set i WorkerState.ready }

/-- Finite executions of the stage step relation, carrying the list of
events performed. -/
inductive Trace (requestCount : Nat) (act : Nat → Outcome) :
    StageState → List Event → StageState → Prop where
  | nil (s : StageState) : Trace requestCount act s [] s
  | cons {s s' s'' : StageState} {e : Event} {es : List Event}
      (hstep : LStep requestCount act s e s')
      (htr : Trace requestCount act s' es s'') :
      Trace requestCount act s (e :: es) s''

/-- Worker-state test used by the stage invariant: worker holds a
claimed, not yet recorded index. -/
def isPending : WorkerState → Bool
  | .pending _ => true
  | _ => false

/-- Invariant of a stage run with concurrency c and bound rc: the worker
count is constant; recorded outcomes plus in-flight claims account for
exactly the indices handed out below the bound; a finished worker
certifies the counter reached the bound; and the latency samples track
the completed count and the duration sum. -/
def StageInv (c rc : Nat) (s : StageState) : Prop :=
  s.workers.length = c ∧
  s.stats.completed + s.stats.errors + s.workers.countP isPending =
    min s.tasksStarted rc ∧
  (∀ w ∈ s.workers, w = WorkerState.done → rc ≤ s.tasksStarted) ∧
  s.stats.latencies.length = s.stats.completed ∧
  s.stats.latencies.sum = s.stats.totalDuration

/-- Index returned by a poll event, if any. -/
def pollIdx : Event → Option Nat
  | .poll _ idx => some idx
  | .record _ _ => none

/-- Sequence of counter values handed out to the workers during a trace,
in the order they were polled. -/
def pollIndices (tr : List Event) : List Nat :=
  tr.filterMap pollIdx

/-- Terminal states of the progressive controller, section 4.6 of the
spec: the loop of src/index.js lines 232-249 either breaks on a critical
failure, reporting the prior concurrency level (current minus step, line
240) as the estimated stable limit, or exits normally once the current
concurrency passes the ceiling. -/
inductive TerminalState where
  | stoppedOnFailure (stableLimit : Int)
  | stoppedAtCeiling
deriving DecidableEq

/-- The progressive ramp-up loop of runProgressiveTest (src/index.js
lines 229-249).  The environment env supplies, for the stage at each
concurrency level, the final stats and elapsed seconds of that stage
run, from which the stage result is derived as in runStage.  While the
current concurrency is at most the ceiling the loop runs one stage and
appends its result; on a critical failure it breaks, reporting
current - step as the estimated stable limit; otherwise it advances the
concurrency by step (the pause between stages has no observable effect
on the report).  A positive step makes the loop terminate. -/
def runProgressiveTest (env : Nat → Stats × ℚ) (requestCount step ceiling : Nat)
    (hstep : 0 < step) (current : Nat) : List StageResult × TerminalState :=
  if _h : current ≤ ceiling then
    let result := mkStageResult current requestCount (env current).1 (env current).2
    if result.hasCriticalFailure then
      ([result], TerminalState.stoppedOnFailure ((current : Int) - (step : Int)))
    else
      let rest := runProgressiveTest env requestCount step ceiling hstep (current + step)
      (result :: rest.1, rest.2)
  else
    ([], TerminalState.stoppedAtCeiling)
termination_by ceiling + 1 - current
decreasing_by omega

/-- Action environment of the concrete stage execution used as a witness
below: every action succeeds in 5 milliseconds. -/
def actWit : Nat → Outcome := fun _ => Outcome.success 5

/-- Event list of a complete one-worker stage with requestCount 1: the
worker claims index 0, records its outcome, then observes exhaustion. -/
def trWit : List Event := [Event.poll 0 0, Event.record 0 0, Event.poll 0 1]

/-- Final state of that one-worker stage. -/
def sWitFinal : StageState :=
  { tasksStarted := 2
    stats := { completed := 1, errors := 0, totalDuration := 5
               latencies := [5], connErrors := 0 }
    workers := [WorkerState.done] }

/-- Stage environment for a concrete progressive run: every stage is
clean except the one at concurrency 30, which sees one
connection-classified error. -/
def envWit : Nat → Stats × ℚ := fun n =>
  if n = 30 then
    ({ completed := 1999, errors := 1, totalDuration := 0, latencies := [], connErrors := 1 }, 1)
  else
    ({ completed := 2000, errors := 0, totalDuration := 0, latencies := [], connErrors := 0 }, 1)

/-- Stage environment for a concrete progressive run in which every
stage is clean. -/
def envOk : Nat → Stats × ℚ := fun _ =>
  ({ completed := 2000, errors := 0, totalDuration := 0, latencies := [], connErrors := 0 }, 1)

/-- The stage result at concurrency 30 under envWit. -/
def rWit : StageResult := mkStageResult 30 2000 (envWit 30).1 (envWit 30).2

/-- Helper: an index with a value in a list is within bounds. -/
lemma lt_length_of_getq {α : Type} (l : List α) (i : Nat) (a : α)
    (h : l.get? i = some a) : i < l.length := by
  induction l generalizing i with
  | nil => simp at h
  | cons x t ih =>
    cases i with
    | zero => simp
    | succ j => simpa using ih j h

/-- Helper: setting one position leaves the others unchanged. -/
lemma getq_set_ne {α : Type} (l : List α) (i j : Nat) (b : α) (hij : i ≠ j) :
    (l.set i b).get? j = l.get? j := by
  induction l generalizing i j with
  | nil => simp
  | cons a t ih =>
    cases i with
    | zero =>
      cases j with
      | zero => exact absurd rfl hij
      | succ j => simp [List.set]
    | succ i =>
      cases j with
      | zero => simp [List.set]
      | succ j => simpa [List.set] using ih i j (by omega)

/-- Helper: setting an in-bounds position stores the new value there. -/
lemma getq_set_self {α : Type} (l : List α) (i : Nat) (b : α) (h : i < l.length) :
    (l.set i b).get? i = some b := by
  induction l generalizing i with
  | nil => simp at h
  | cons a t ih =>
    cases i with
    | zero => rfl
    | succ j => simpa [List.set] using ih j (by simpa using h)

/-- Helper: effect of a pointwise update on a countP, in additive form. -/
lemma countP_set {α : Type} (p : α → Bool) (l : List α) (i : Nat) (a b : α)
    (h : l.get? i = some a) :
    (l.set i b).countP p + (if p a then 1 else 0) =
      l.countP p + (if p b then 1 else 0) := by
  induction l generalizing i with
  | nil => simp at h
  | cons x t ih =>
    cases i with
    | zero =>
      have hx : x = a := by simpa using h
      subst hx
      simp [List.set, List.countP_cons]
      omega
    | succ j =>
      have := ih j h
      simp [List.set, List.countP_cons]
      omega

/-- Helper: a member of an updated list is a member of the original list
or the new value. -/
lemma mem_of_mem_set {α : Type} (l : List α) (i : Nat) (b x : α)
    (h : x ∈ l.set i b) : x ∈ l ∨ x = b := by
  induction l generalizing i with
  | nil => simp at h
  | cons a t ih =>
    cases i with
    | zero =>
      rcases List.mem_cons.mp h with h1 | h1
      · exact Or.inr h1
      · exact Or.inl (List.mem_cons_of_mem a h1)
    | succ j =>
      rcases List.mem_cons.mp h with h1 | h1
      · exact Or.inl (h1 ▸ List.mem_cons_self a t)
      · rcases ih j h1 with h2 | h2
        · exact Or.inl (List.mem_cons_of_mem a h2)
        · exact Or.inr h2

/-- Helper: countP of a replicated non-matching element is zero. -/
lemma countP_replicate_zero {α : Type} (p : α → Bool) (n : Nat) (a : α)
    (h : p a = false) : (List.replicate n a).countP p = 0 := by
  induction n with
  | zero => rfl
  | succ m ih => simp [List.replicate, List.countP_cons, h, ih]

/-- The stage invariant holds initially. -/
lemma stageInv_init (c rc : Nat) : StageInv c rc (initState c) := by
  refine ⟨by simp [initState], ?_, ?_, rfl, rfl⟩
  · simp [initState, Stats.init, countP_replicate_zero isPending c WorkerState.ready rfl]
  · intro w hw hwd
    have := List.eq_of_mem_replicate hw
    rw [hwd] at this
    cases this

/-- The stage invariant is preserved by every step. -/
lemma stageInv_step {c rc : Nat} {act : Nat → Outcome} {s : StageState} {e : Event}
    {s' : StageState} (hst : LStep rc act s e s') (hs : StageInv c rc s) :
    StageInv c rc s' := by
  obtain ⟨hlen, hcount, hdone, hlat, hsum⟩ := hs
  cases hst with
  | poll i h =>
    by_cases hex : rc ≤ s.tasksStarted
    · rw [if_pos hex]
      refine ⟨?_, ?_, ?_, hlat, hsum⟩
      · rw [List.length_set]; exact hlen
      · have hc := countP_set isPending s.workers i WorkerState.ready WorkerState.done h
        simp [isPending] at hc
        dsimp only
        omega
      · intro w hw hwd
        dsimp only at hw hwd ⊢
        rcases mem_of_mem_set s.workers i WorkerState.done w hw with hmem | hb
        · have := hdone w hmem hwd
          omega
        · omega
    · rw [if_neg hex]
      refine ⟨?_, ?_, ?_, hlat, hsum⟩
      · rw [List.length_set]; exact hlen
      · have hc := countP_set isPending s.workers i WorkerState.ready
          (WorkerState.pending s.tasksStarted) h
        simp [isPending] at hc
        dsimp only
        omega
      · intro w hw hwd
        dsimp only at hw hwd ⊢
        rcases mem_of_mem_set s.workers i (WorkerState.pending s.tasksStarted) w hw with
          hmem | hb
        · have := hdone w hmem hwd
          omega
        · rw [hb] at hwd
          cases hwd
  | record i idx h =>
    have hc := countP_set isPending s.workers i (WorkerState.pending idx) WorkerState.ready h
    simp [isPending] at hc
    cases hact : act idx with
    | success d =>
      refine ⟨?_, ?_, ?_, ?_, ?_⟩
      · rw [List.length_set]; exact hlen
      · simp only [Stats.record, hact]
        omega
      · intro w hw hwd
        dsimp only at hw hwd ⊢
        rcases mem_of_mem_set s.workers i WorkerState.ready w hw with hmem | hb
        · exact hdone w hmem hwd
        · rw [hb] at hwd
          cases hwd
      · simp only [Stats.record, hact]
        simp [hlat]
      · simp only [Stats.record, hact]
        simp [hsum]
    | failure err =>
      refine ⟨?_, ?_, ?_, ?_, ?_⟩
      · rw [List.length_set]; exact hlen
      · simp only [Stats.record, hact]
        omega
      · intro w hw hwd
        dsimp only at hw hwd ⊢
        rcases mem_of_mem_set s.workers i WorkerState.ready w hw with hmem | hb
        · exact hdone w hmem hwd
        · rw [hb] at hwd
          cases hwd
      · simp only [Stats.record, hact]
        exact hlat
      · simp only [Stats.record, hact]
        exact hsum

/-- The stage invariant holds at the end of every execution. -/
lemma stageInv_trace {c rc : Nat} {act : Nat → Outcome} {s : StageState}
    {tr : List Event} {s' : StageState} :
    Trace rc act s tr s' → StageInv c rc s → StageInv c rc s' := by
  intro h
  induction h with
  | nil => exact id
  | cons hstep htr ih => exact fun hs => ih (stageInv_step hstep hs)

/-- Characterization of the task source: along any execution the polled
indices are exactly the consecutive counter values starting at the
initial counter, and the counter advances by one per poll. -/
lemma trace_pollIndices {rc : Nat} {act : Nat → Outcome} {s : StageState}
    {tr : List Event} {s' : StageState} (h : Trace rc act s tr s') :
    pollIndices tr = List.range' s.tasksStarted (pollIndices tr).length ∧
      s'.tasksStarted = s.tasksStarted + (pollIndices tr).length := by
  induction h with
  | nil => exact ⟨rfl, rfl⟩
  | cons hstep htr ih =>
    obtain ⟨ih1, ih2⟩ := ih
    cases hstep with
    | poll i h =>
      constructor
      · simp only [pollIndices, List.filterMap_cons, pollIdx] at ih1 ⊢
        rw [List.length_cons, List.range'_succ]
        exact congrArg (List.cons _) ih1
      · simp only [pollIndices, List.filterMap_cons, pollIdx, List.length_cons] at ih2 ⊢
        omega
    | record i idx h =>
      constructor
      · simpa only [pollIndices, List.filterMap_cons, pollIdx] using ih1
      · simpa only [pollIndices, List.filterMap_cons, pollIdx] using ih2

/-- Splitting an execution at a list split point. -/
lemma trace_append {rc : Nat} {act : Nat → Outcome} (tr1 : List Event)
    {s s'' : StageState} {tr2 : List Event}
    (h : Trace rc act s (tr1 ++ tr2) s'') :
    ∃ mid, Trace rc act s tr1 mid ∧ Trace rc act mid tr2 s'' := by
  induction tr1 generalizing s with
  | nil => exact ⟨s, Trace.nil s, h⟩
  | cons e es ih =>
    cases h with
    | cons hstep htr =>
      obtain ⟨mid, h1, h2⟩ := ih htr
      exact ⟨mid, Trace.cons hstep h1, h2⟩

/-- Helper: membership in an arithmetic progression gives a lower bound. -/
lemma le_of_mem_rangeq {m : Nat} : ∀ {a n : Nat}, m ∈ List.range' a n → a ≤ m := by
  intro a n
  induction n generalizing a with
  | zero => intro h; simp [List.range'] at h
  | succ k ih =>
    intro h
    rw [List.range'_succ] at h
    rcases List.mem_cons.mp h with h1 | h1
    · omega
    · have := ih h1
      omega

/-- A worker whose state is done takes no further step: no event of any
later execution belongs to it. -/
lemma done_silent {rc : Nat} {act : Nat → Outcome} {w : Nat} {s : StageState}
    {tr : List Event} {s' : StageState} (h : Trace rc act s tr s') :
    s.workers.get? w = some WorkerState.done → ∀ e ∈ tr, Event.worker e ≠ w := by
  induction h with
  | nil => intro _ e he; simp at he
  | cons hstep htr ih =>
    intro hw e' he'
    cases hstep with
    | poll i h =>
      have hiw : i ≠ w := by
        intro hEq
        rw [hEq, hw] at h
        cases h
      rcases List.mem_cons.mp he' with h1 | h1
      · rw [h1]; exact hiw
      · refine ih ?_ e' h1
        dsimp only
        rw [getq_set_ne _ _ _ _ hiw]
        exact hw
    | record i idx h =>
      have hiw : i ≠ w := by
        intro hEq
        rw [hEq, hw] at h
        cases h
      rcases List.mem_cons.mp he' with h1 | h1
      · rw [h1]; exact hiw
      · refine ih ?_ e' h1
        dsimp only
        rw [getq_set_ne _ _ _ _ hiw]
        exact hw

end DbStress

namespace DbStress

/-- C2: for every stage, the critical-failure flag holds exactly when
there is at least one connection-classified error or the error rate
strictly exceeds MAX_ERROR_RATE; at exactly the threshold with no
connection errors the flag is false. -/
theorem C2_criticalFailure_iff (c rc : Nat) (st : Stats) (t : ℚ) (h : 0 < rc) :
    ((mkStageResult c rc st t).hasCriticalFailure = true ↔
      (0 < st.connErrors ∨ MAX_ERROR_RATE < (st.errors : ℚ) / (rc : ℚ))) := by
  have hrc : ((rc : ℚ)) ≠ 0 := by
    exact_mod_cast Nat.pos_iff_ne_zero.mp h
  simp only [mkStageResult, jsDiv, if_neg hrc, JsNum.gt, Bool.or_eq_true, decide_eq_true_eq]

/-- Witness for C2 at a concrete boundary input: 100 errors out of 2000
requests is exactly the 5 percent threshold, zero connection errors. -/
theorem C2_criticalFailure_iff_witness :
    ((mkStageResult 10 2000 ⟨1900, 100, 0, [], 0⟩ 1).hasCriticalFailure = true ↔
      (0 < (⟨1900, 100, 0, [], 0⟩ : Stats).connErrors ∨
        MAX_ERROR_RATE < (((⟨1900, 100, 0, [], 0⟩ : Stats).errors : ℚ) / (2000 : ℚ)))) :=
  C2_criticalFailure_iff 10 2000 ⟨1900, 100, 0, [], 0⟩ 1 (by norm_num)

/-- C3 counterexample: on the sorted fixture [10, ..., 1000] the code's
percentile selection returns 510 for p50, not the claimed 50th smallest
value 500 (the floor index 50 is 0-based, selecting the 51st smallest). -/
theorem C3_percentile_counterexample :
    getPercentile latencyFixture 50 = 510 ∧ (510 : Nat) ≠ 500 := by
  constructor
  · rfl
  · decide

/-- C3 amended: on the fixture, floor-index selection with index
floor(p / 100 * 100) into the 0-based sorted array returns p50 = 510
(the 51st smallest value) and p99 = 1000 (the 100th smallest value). -/
theorem C3_percentile_amended :
    getPercentile latencyFixture 50 = 510 ∧ getPercentile latencyFixture 99 = 1000 := by
  exact ⟨rfl, rfl⟩

/-- C4 counterexample: a stage whose elapsed time is 0 with 5 completed
actions reports throughput Infinity, not 0 — the division by zero is not
guarded. -/
theorem C4_throughput_counterexample :
    (mkStageResult 10 2000 ⟨5, 0, 0, [1, 1, 1, 1, 1], 0⟩ 0).throughput = JsNum.posInf ∧
      JsNum.posInf ≠ JsNum.fin 0 := by
  constructor
  · simp [mkStageResult, jsDiv]
  · decide

/-- C4 amended: throughput equals completedCount divided by elapsed
seconds whenever the elapsed time is positive; when the elapsed time is
0 the division is unguarded and yields NaN (no completions) or Infinity
(at least one completion). -/
theorem C4_throughput_amended (c rc : Nat) (st : Stats) (t : ℚ) :
    (0 < t → (mkStageResult c rc st t).throughput = JsNum.fin ((st.completed : ℚ) / t)) ∧
      (t = 0 → (mkStageResult c rc st t).throughput =
        if st.completed = 0 then JsNum.nan else JsNum.posInf) := by
  constructor
  · intro ht
    have : t ≠ 0 := ne_of_gt ht
    simp [mkStageResult, jsDiv, this]
  · intro ht
    subst ht
    by_cases hc : st.completed = 0
    · simp [mkStageResult, jsDiv, hc]
    · have h0 : ((st.completed : ℚ)) ≠ 0 := by exact_mod_cast hc
      have hpos : (0 : ℚ) < (st.completed : ℚ) := by
        exact_mod_cast Nat.pos_iff_ne_zero.mpr hc
      simp [mkStageResult, jsDiv, h0, hpos, hc]

/-- Witness for C4 amended at elapsed time 2 seconds and 5 completions. -/
theorem C4_throughput_amended_witness :
    (mkStageResult 10 2000 ⟨5, 0, 0, [], 0⟩ 2).throughput =
      JsNum.fin (((⟨5, 0, 0, [], 0⟩ : Stats).completed : ℚ) / 2) :=
  (C4_throughput_amended 10 2000 ⟨5, 0, 0, [], 0⟩ 2).1 (by norm_num)

/-- C8: on every exit path of performUserAction a handle that was
actually acquired is released exactly once (success, write failure or
read failure alike), and when acquisition itself fails no release is
attempted. -/
theorem C8_release_discipline (w r : Except JsError Unit) (d : Nat) :
    (∀ e, (performUserAction (Except.error e) w r d).2 = 0) ∧
      (performUserAction (Except.ok ()) w r d).2 = 1 := by
  refine ⟨fun e => rfl, ?_⟩
  cases w with
  | error e => rfl
  | ok u => cases r with
    | error e => rfl
    | ok u => rfl

/-- The one-worker stage execution used as a concrete witness: claim
index 0, record its successful outcome, poll again and observe
exhaustion. -/
lemma traceWit : Trace 1 actWit (initState 1) trWit sWitFinal := by
  refine Trace.cons (LStep.poll 0 rfl) ?_
  refine Trace.cons (LStep.record 0 0 rfl) ?_
  refine Trace.cons (LStep.poll 0 rfl) ?_
  exact Trace.nil _

/-- C1: for every stage with concurrency at least 1 and any request
count, once the worker pool has completed (every worker has observed
exhaustion and terminated) the final stats satisfy
completed + errors = requestCount: every dispatched task index yields
exactly one recorded outcome, none lost and none double-counted. -/
theorem C1_outcome_conservation (c rc : Nat) (act : Nat → Outcome) (tr : List Event)
    (s : StageState) (hc : 1 ≤ c) (h : Trace rc act (initState c) tr s)
    (hdone : ∀ w ∈ s.workers, w = WorkerState.done) :
    s.stats.completed + s.stats.errors = rc := by
  obtain ⟨hlen, hcount, hd, _, _⟩ := stageInv_trace h (stageInv_init c rc)
  have hne : s.workers ≠ [] := by
    intro hnil
    rw [hnil] at hlen
    simp at hlen
    omega
  obtain ⟨w, hw⟩ := List.exists_mem_of_ne_nil s.workers hne
  have hts : rc ≤ s.tasksStarted := hd w hw (hdone w hw)
  have hzero : s.workers.countP isPending = 0 := by
    rw [List.countP_eq_zero]
    intro a ha
    rw [hdone a ha]
    simp [isPending]
  omega

/-- Witness for C1: the complete one-worker stage with requestCount 1
ends with one completed action and no errors. -/
theorem C1_outcome_conservation_witness :
    sWitFinal.stats.completed + sWitFinal.stats.errors = 1 :=
  C1_outcome_conservation 1 1 actWit trWit sWitFinal (by norm_num) traceWit (by decide)

/-- C5: along any stage execution the task source never hands the same
index to two polls (the polled indices are exactly 0, 1, 2, ... in
order, hence pairwise distinct); once requestCount indices have been
issued, every later poll returns an index at or past the bound, i.e.
observes exhaustion, no matter how often it is repeated; and a worker
that polls an exhausted index terminates and never takes another step. -/
theorem C5_taskSource_unique_exhaustion (c rc : Nat) (act : Nat → Outcome)
    (tr : List Event) (s : StageState) (h : Trace rc act (initState c) tr s) :
    (pollIndices tr).Nodup ∧
      (∀ tr1 tr2, tr = tr1 ++ tr2 → rc ≤ (pollIndices tr1).length →
        ∀ idx ∈ pollIndices tr2, rc ≤ idx) ∧
      (∀ tr1 w idx tr2, tr = tr1 ++ Event.poll w idx :: tr2 → rc ≤ idx →
        ∀ e ∈ tr2, Event.worker e ≠ w) := by
  refine ⟨?_, ?_, ?_⟩
  · obtain ⟨h1, _⟩ := trace_pollIndices h
    rw [h1, show (initState c).tasksStarted = 0 from rfl, ← List.range_eq_range']
    exact List.nodup_range _
  · intro tr1 tr2 heq hrc idx hidx
    subst heq
    obtain ⟨mid, ht1, ht2⟩ := trace_append tr1 h
    obtain ⟨_, hts1⟩ := trace_pollIndices ht1
    obtain ⟨h2, _⟩ := trace_pollIndices ht2
    rw [h2] at hidx
    have hle := le_of_mem_rangeq hidx
    have h0 : (initState c).tasksStarted = 0 := rfl
    omega
  · intro tr1 w idx tr2 heq hidx e he
    subst heq
    obtain ⟨mid, ht1, ht2⟩ := trace_append tr1 h
    cases ht2 with
    | cons hstep htr =>
      cases hstep with
      | poll i hready =>
        refine done_silent htr ?_ e he
        dsimp only
        rw [if_pos hidx]
        exact getq_set_self mid.workers w WorkerState.done
          (lt_length_of_getq mid.workers w WorkerState.ready hready)

/-- Witness for C5: the properties instantiated on the complete
one-worker stage execution with requestCount 1. -/
theorem C5_taskSource_unique_exhaustion_witness :
    (pollIndices trWit).Nodup ∧
      (∀ tr1 tr2, trWit = tr1 ++ tr2 → 1 ≤ (pollIndices tr1).length →
        ∀ idx ∈ pollIndices tr2, 1 ≤ idx) ∧
      (∀ tr1 w idx tr2, trWit = tr1 ++ Event.poll w idx :: tr2 → 1 ≤ idx →
        ∀ e ∈ tr2, Event.worker e ≠ w) :=
  C5_taskSource_unique_exhaustion 1 1 actWit trWit sWitFinal traceWit

/-- C9: for every stage, the reported average latency equals the sum of
the recorded latency samples divided by completedCount when
completedCount is positive, and 0 otherwise. -/
theorem C9_avgLatency_eq (c rc : Nat) (act : Nat → Outcome) (tr : List Event)
    (s : StageState) (t : ℚ) (h : Trace rc act (initState c) tr s) :
    (mkStageResult c rc s.stats t).avgLatency =
      if 0 < s.stats.completed then
        ((s.stats.latencies.sum : ℚ) / (s.stats.completed : ℚ))
      else 0 := by
  obtain ⟨_, _, _, _, hsum⟩ := stageInv_trace h (stageInv_init c rc)
  rw [show (mkStageResult c rc s.stats t).avgLatency =
      (if 0 < s.stats.completed then
        ((s.stats.totalDuration : ℚ) / (s.stats.completed : ℚ))
      else 0) from rfl]
  rw [← hsum]

/-- Witness for C9 on the final stats of the one-worker stage. -/
theorem C9_avgLatency_eq_witness :
    (mkStageResult 1 1 sWitFinal.stats 2).avgLatency =
      if 0 < sWitFinal.stats.completed then
        ((sWitFinal.stats.latencies.sum : ℚ) / (sWitFinal.stats.completed : ℚ))
      else 0 :=
  C9_avgLatency_eq 1 1 actWit trWit sWitFinal 2 traceWit

/-- C10: throughout a stage and at its end, the latency samples come
only from successful actions: the collection holds exactly one sample
per success (its length equals completedCount) and its sum equals the
accumulated duration total, while recording a failure changes neither
the samples nor the duration sum. -/
theorem C10_latency_samples (c rc : Nat) (act : Nat → Outcome) (tr : List Event)
    (s : StageState) (h : Trace rc act (initState c) tr s) :
    (s.stats.latencies.length = s.stats.completed ∧
        s.stats.latencies.sum = s.stats.totalDuration) ∧
      ∀ (st : Stats) (e : JsError),
        (st.record (Outcome.failure e)).latencies = st.latencies ∧
          (st.record (Outcome.failure e)).totalDuration = st.totalDuration := by
  obtain ⟨_, _, _, hlat, hsum⟩ := stageInv_trace h (stageInv_init c rc)
  exact ⟨⟨hlat, hsum⟩, fun st e => ⟨rfl, rfl⟩⟩

/-- Witness for C10 on the final state of the one-worker stage. -/
theorem C10_latency_samples_witness :
    (sWitFinal.stats.latencies.length = sWitFinal.stats.completed ∧
        sWitFinal.stats.latencies.sum = sWitFinal.stats.totalDuration) ∧
      ∀ (st : Stats) (e : JsError),
        (st.record (Outcome.failure e)).latencies = st.latencies ∧
          (st.record (Outcome.failure e)).totalDuration = st.totalDuration :=
  C10_latency_samples 1 1 actWit trWit sWitFinal traceWit

/-- Helper: the last element of a list with a cons head and a nonempty
tail is the last element of the tail. -/
lemma getLastq_cons {α : Type} (a : α) (l : List α) (h : l ≠ []) :
    (a :: l).getLast? = l.getLast? := by
  cases l with
  | nil => exact absurd rfl h
  | cons b t => exact List.getLast?_cons_cons

/-- C6: in every progressive run, if some reported stage has
criticalFailure set then it is the last stage of the report (no further
stage ran), the terminal state is StoppedOnFailure, and the reported
stable concurrency limit is that stage's concurrency minus the step. -/
theorem C6_stop_on_failure (env : Nat → Stats × ℚ) (rc step ceiling : Nat)
    (hstep : 0 < step) (current : Nat) (r : StageResult)
    (hr : r ∈ (runProgressiveTest env rc step ceiling hstep current).1)
    (hcrit : r.hasCriticalFailure = true) :
    (runProgressiveTest env rc step ceiling hstep current).1.getLast? = some r ∧
      (runProgressiveTest env rc step ceiling hstep current).2 =
        TerminalState.stoppedOnFailure ((r.concurrency : Int) - (step : Int)) := by
  have H : ∀ m cur, ceiling + 1 - cur = m →
      ∀ r : StageResult, r ∈ (runProgressiveTest env rc step ceiling hstep cur).1 →
        r.hasCriticalFailure = true →
        (runProgressiveTest env rc step ceiling hstep cur).1.getLast? = some r ∧
          (runProgressiveTest env rc step ceiling hstep cur).2 =
            TerminalState.stoppedOnFailure ((r.concurrency : Int) - (step : Int)) := by
    intro m
    induction m using Nat.strong_induction_on with
    | _ m ih =>
      intro cur hm r' hr' hcrit'
      rw [runProgressiveTest.eq_def] at hr' ⊢
      by_cases hcc : cur ≤ ceiling
      · rw [dif_pos hcc] at hr' ⊢
        by_cases hcf :
            (mkStageResult cur rc (env cur).1 (env cur).2).hasCriticalFailure = true
        · rw [if_pos hcf] at hr' ⊢
          rw [List.mem_singleton] at hr'
          subst hr'
          exact ⟨rfl, rfl⟩
        · rw [if_neg hcf] at hr' ⊢
          dsimp only at hr' ⊢
          rcases List.mem_cons.mp hr' with h1 | h1
          · exact absurd (h1 ▸ hcrit') hcf
          · have hrec := ih (ceiling + 1 - (cur + step)) (by omega) (cur + step) rfl
              r' h1 hcrit'
            refine ⟨?_, hrec.2⟩
            rw [getLastq_cons _ _ (List.ne_nil_of_mem h1)]
            exact hrec.1
      · rw [dif_neg hcc] at hr'
        simp at hr'
  exact H (ceiling + 1 - current) current rfl r hr hcrit

/-- Helper: under envWit the stage at concurrency 10 is clean. -/
lemma envWit_clean10 :
    (mkStageResult 10 2000 (envWit 10).1 (envWit 10).2).hasCriticalFailure = false := by
  norm_num [mkStageResult, envWit, jsDiv, JsNum.gt, MAX_ERROR_RATE]

/-- Helper: under envWit the stage at concurrency 20 is clean. -/
lemma envWit_clean20 :
    (mkStageResult 20 2000 (envWit 20).1 (envWit 20).2).hasCriticalFailure = false := by
  norm_num [mkStageResult, envWit, jsDiv, JsNum.gt, MAX_ERROR_RATE]

/-- Helper: under envWit the stage at concurrency 30 is critical. -/
lemma envWit_crit30 :
    (mkStageResult 30 2000 (envWit 30).1 (envWit 30).2).hasCriticalFailure = true := by
  rfl

/-- Helper: value of the concrete progressive run under envWit, which
fails at concurrency 30. -/
lemma runWitEval :
    runProgressiveTest envWit 2000 10 500 (by norm_num) 10 =
      ([mkStageResult 10 2000 (envWit 10).1 (envWit 10).2,
        mkStageResult 20 2000 (envWit 20).1 (envWit 20).2,
        mkStageResult 30 2000 (envWit 30).1 (envWit 30).2],
       TerminalState.stoppedOnFailure 20) := by
  have e30 : runProgressiveTest envWit 2000 10 500 (by norm_num) 30 =
      ([mkStageResult 30 2000 (envWit 30).1 (envWit 30).2],
       TerminalState.stoppedOnFailure 20) := by
    rw [runProgressiveTest.eq_def]
    norm_num [envWit_crit30]
  have e20 : runProgressiveTest envWit 2000 10 500 (by norm_num) 20 =
      ([mkStageResult 20 2000 (envWit 20).1 (envWit 20).2,
        mkStageResult 30 2000 (envWit 30).1 (envWit 30).2],
       TerminalState.stoppedOnFailure 20) := by
    rw [runProgressiveTest.eq_def]
    norm_num [envWit_clean20, e30]
  rw [runProgressiveTest.eq_def]
  norm_num [envWit_clean10, e20]

/-- Witness for C6: the concrete run under envWit ends at the critical
stage of concurrency 30, with terminal state StoppedOnFailure and stable
limit 30 - 10 = 20. -/
theorem C6_stop_on_failure_witness :
    (runProgressiveTest envWit 2000 10 500 (by norm_num) 10).1.getLast? = some rWit ∧
      (runProgressiveTest envWit 2000 10 500 (by norm_num) 10).2 =
        TerminalState.stoppedOnFailure ((rWit.concurrency : Int) - (10 : Int)) :=
  C6_stop_on_failure envWit 2000 10 500 (by norm_num) 10 rWit
    (by rw [runWitEval]; simp [rWit]) envWit_crit30

/-- C7: a progressive run with initial concurrency 10, step 10 and
ceiling 30 in which no stage reports a critical failure executes exactly
the three stages of concurrencies 10, 20, 30 in that order and
terminates in state StoppedAtCeiling. -/
theorem C7_three_stages (env : Nat → Stats × ℚ) (rc : Nat) (hstep : 0 < 10)
    (hok : ∀ n, (mkStageResult n rc (env n).1 (env n).2).hasCriticalFailure = false) :
    (runProgressiveTest env rc 10 30 hstep 10).1.map StageResult.concurrency =
        [10, 20, 30] ∧
      (runProgressiveTest env rc 10 30 hstep 10).2 = TerminalState.stoppedAtCeiling := by
  have e40 : runProgressiveTest env rc 10 30 hstep 40 =
      ([], TerminalState.stoppedAtCeiling) := by
    rw [runProgressiveTest.eq_def]
    norm_num
  have e30 : runProgressiveTest env rc 10 30 hstep 30 =
      ([mkStageResult 30 rc (env 30).1 (env 30).2], TerminalState.stoppedAtCeiling) := by
    rw [runProgressiveTest.eq_def]
    norm_num [hok 30, e40]
  have e20 : runProgressiveTest env rc 10 30 hstep 20 =
      ([mkStageResult 20 rc (env 20).1 (env 20).2,
        mkStageResult 30 rc (env 30).1 (env 30).2], TerminalState.stoppedAtCeiling) := by
    rw [runProgressiveTest.eq_def]
    norm_num [hok 20, e30]
  have e10 : runProgressiveTest env rc 10 30 hstep 10 =
      ([mkStageResult 10 rc (env 10).1 (env 10).2,
        mkStageResult 20 rc (env 20).1 (env 20).2,
        mkStageResult 30 rc (env 30).1 (env 30).2], TerminalState.stoppedAtCeiling) := by
    rw [runProgressiveTest.eq_def]
    norm_num [hok 10, e20]
  rw [e10]
  exact ⟨rfl, rfl⟩

/-- Helper: under envOk every stage is clean. -/
lemma envOk_clean (n : Nat) :
    (mkStageResult n 2000 (envOk n).1 (envOk n).2).hasCriticalFailure = false := by
  norm_num [mkStageResult, envOk, jsDiv, JsNum.gt, MAX_ERROR_RATE]

/-- Witness for C7: the concrete all-clean run under envOk produces the
three stages 10, 20, 30 and stops at the ceiling. -/
theorem C7_three_stages_witness :
    (runProgressiveTest envOk 2000 10 30 (by norm_num) 10).1.map StageResult.concurrency =
        [10, 20, 30] ∧
      (runProgressiveTest envOk 2000 10 30 (by norm_num) 10).2 =
        TerminalState.stoppedAtCeiling :=
  C7_three_stages envOk 2000 (by norm_num) (fun n => envOk_clean n)

end DbStress
